import Mathlib

/-!
Shallow embedding of the `segment_rust` repository: an append-only,
file-backed segment primitive (`src/segment.rs`), the `Storable` record
contract (`src/storable.rs`) and the example `Message` record type
(`src/message.rs`).

Bytes are modelled as `Nat` values below 256; machine integers are `Nat`
with explicit `% 2^32` / `% 2^64` where Rust wraps or casts.  The
filesystem is explicit state (`FS`); every operation of the Rust code is
a pure Lean function threading that state.
-/

/-- Big-endian 4-byte encoding of a `u32` value, as in Rust
`u32::to_be_bytes` (the argument is reduced mod `2^32` first, matching
the `as u32` views of the source). -/
def toBeBytes32 (n : Nat) : List Nat :=
  [n % 2 ^ 32 / 2 ^ 24, n % 2 ^ 24 / 2 ^ 16, n % 2 ^ 16 / 2 ^ 8, n % 2 ^ 8]

/-- Big-endian 4-byte decoding, as in Rust `u32::from_be_bytes` applied to
the four bytes read by `Segment::read`. -/
def fromBeBytes32 (bs : List Nat) : Nat :=
  match bs with
  | [a, b, c, d] => ((a * 256 + b) * 256 + c) * 256 + d
  | _ => 0

/-- Little-endian 8-byte encoding of a `u64`, as bincode (fix-int, little
endian) writes the length of a `String`. -/
def toLeBytes64 (n : Nat) : List Nat :=
  [n % 2 ^ 8, n % 2 ^ 16 / 2 ^ 8, n % 2 ^ 24 / 2 ^ 16, n % 2 ^ 32 / 2 ^ 24,
   n % 2 ^ 40 / 2 ^ 32, n % 2 ^ 48 / 2 ^ 40, n % 2 ^ 56 / 2 ^ 48, n % 2 ^ 64 / 2 ^ 56]

/-- Little-endian 8-byte decoding of a `u64`. -/
def fromLeBytes64 (bs : List Nat) : Nat :=
  match bs with
  | [a, b, c, d, e, f, g, h] =>
      a + 256 * (b + 256 * (c + 256 * (d + 256 * (e + 256 * (f + 256 * (g + 256 * h))))))
  | _ => 0

/-- A UTF-8 continuation byte (`0x80..=0xBF`). -/
def isCont (b : Nat) : Bool := 0x80 ≤ b && b ≤ 0xBF

/-- UTF-8 validity of a byte sequence, as checked by bincode when
deserializing a Rust `String` (`str::from_utf8`). -/
def validUtf8 : List Nat → Bool
  | [] => true
  | b :: rest =>
    if b ≤ 0x7F then validUtf8 rest
    else if 0xC2 ≤ b && b ≤ 0xDF then
      match rest with
      | b1 :: r => isCont b1 && validUtf8 r
      | _ => false
    else if b = 0xE0 then
      match rest with
      | b1 :: b2 :: r => (0xA0 ≤ b1 && b1 ≤ 0xBF) && isCont b2 && validUtf8 r
      | _ => false
    else if (0xE1 ≤ b && b ≤ 0xEC) || b = 0xEE || b = 0xEF then
      match rest with
      | b1 :: b2 :: r => isCont b1 && isCont b2 && validUtf8 r
      | _ => false
    else if b = 0xED then
      match rest with
      | b1 :: b2 :: r => (0x80 ≤ b1 && b1 ≤ 0x9F) && isCont b2 && validUtf8 r
      | _ => false
    else if b = 0xF0 then
      match rest with
      | b1 :: b2 :: b3 :: r =>
          (0x90 ≤ b1 && b1 ≤ 0xBF) && isCont b2 && isCont b3 && validUtf8 r
      | _ => false
    else if 0xF1 ≤ b && b ≤ 0xF3 then
      match rest with
      | b1 :: b2 :: b3 :: r => isCont b1 && isCont b2 && isCont b3 && validUtf8 r
      | _ => false
    else if b = 0xF4 then
      match rest with
      | b1 :: b2 :: b3 :: r =>
          (0x80 ≤ b1 && b1 ≤ 0x8F) && isCont b2 && isCont b3 && validUtf8 r
      | _ => false
    else false

/-- `io::Error` kinds that the segment code produces: `UnexpectedEof`
(short `read_exact`), `InvalidData` (bincode failure, mapped explicitly
in `write`/`read`), and `NotFound` (opening a missing file). -/
inductive IoErr where
  | unexpectedEof
  | invalidData
  | notFound
deriving DecidableEq, Repr

/-- The `Storable` trait of `src/storable.rs` together with the
serde/bincode capabilities it requires (`Serialize + DeserializeOwned`).
`serialize`/`deserialize` model `bincode::serialize`/`bincode::deserialize`
at the given type (`none` = a bincode error); `content_length` and
`total_length` return the `u32` values of the trait methods. -/
structure StorableImpl (T : Type) where
  serialize : T → Option (List Nat)
  deserialize : List Nat → Option T
  content_length : T → Nat
  total_length : T → Nat

/-- The `Message` record of `src/message.rs`: a struct with a single
`String` field, modelled by its UTF-8 byte sequence. -/
structure Message where
  content : List Nat
deriving DecidableEq, Repr

/-- `bincode::serialize` of a `Message`: bincode (fix-int, little endian)
writes the 8-byte little-endian byte length of the `String` followed by
its UTF-8 bytes.  Serialization of a `String` never fails. -/
def Message.serializeBytes (m : Message) : List Nat :=
  toLeBytes64 m.content.length ++ m.content

/-- `bincode::deserialize::<Message>`: read an 8-byte little-endian
length, then that many bytes, which must be valid UTF-8; trailing bytes
are permitted (`bincode::deserialize` allows them). -/
def Message.deserializeBytes (bs : List Nat) : Option Message :=
  if bs.length < 8 then none
  else
    let L := fromLeBytes64 (bs.take 8)
    let rest := bs.drop 8
    if rest.length < L then none
    else if validUtf8 (rest.take L) then some ⟨rest.take L⟩ else none

/-- `Message::content_length`: `bincode::serialize(self).unwrap().len() as u32`.
The serialized form is 8 bytes of length plus the content bytes; the
`as u32` cast wraps mod `2^32`. -/
def Message.content_length (m : Message) : Nat :=
  (8 + m.content.length) % 2 ^ 32

/-- `Message::total_length`: `self.content_length() + Self::MESSAGE_LENGTH`
(`MESSAGE_LENGTH = 4`), a wrapping `u32` addition. -/
def Message.total_length (m : Message) : Nat :=
  (m.content_length + 4) % 2 ^ 32

/-- The `Storable` implementation for `Message`. -/
def msgStorable : StorableImpl Message where
  serialize m := some m.serializeBytes
  deserialize := Message.deserializeBytes
  content_length := Message.content_length
  total_length := Message.total_length

/-- A directory path, as its list of components. -/
abbrev DirPath := List String

/-- A file path: parent directory plus file name (the `file_name()`
component, extension included). -/
abbrev FilePath' := DirPath × String

/-- Explicit filesystem state: the set of existing directories and an
association list of files with their byte contents. -/
structure FS where
  dirs : List DirPath
  files : List (FilePath' × List Nat)
deriving DecidableEq, Repr

def FS.empty : FS := ⟨[], []⟩

/-- Association-list lookup for file contents. -/
def assocFind : List (FilePath' × List Nat) → FilePath' → Option (List Nat)
  | [], _ => none
  | (k, v) :: rest, p => if k = p then some v else assocFind rest p

/-- Association-list update/insert for file contents. -/
def assocSet : List (FilePath' × List Nat) → FilePath' → List Nat →
    List (FilePath' × List Nat)
  | [], p, v => [(p, v)]
  | (k, w) :: rest, p, v =>
      if k = p then (p, v) :: rest else (k, w) :: assocSet rest p v

def FS.readFile (fs : FS) (p : FilePath') : Option (List Nat) :=
  assocFind fs.files p

def FS.writeFile (fs : FS) (p : FilePath') (v : List Nat) : FS :=
  { fs with files := assocSet fs.files p v }

def FS.dirExists (fs : FS) (d : DirPath) : Bool :=
  fs.dirs.any fun x => decide (x = d)

/-- `fs::create_dir_all`: creates the directory and all its ancestors. -/
def FS.mkdirAll (fs : FS) (d : DirPath) : FS :=
  { fs with dirs := ((List.range d.length).map fun k => d.take (k + 1)) ++ fs.dirs }

/-- The `Segment<T>` struct of `src/segment.rs`.  The backing file's
contents live in the `FS`; `cursor` is the open handle's seek position
(the handle is opened in append mode, so writes always go to the end
regardless of `cursor`).  `T` is a phantom type parameter, as in the
source. -/
structure Segment (T : Type) where
  base_offset : Nat
  write_position : Nat
  cursor : Nat
  path : FilePath'
deriving DecidableEq, Repr

/-- `FILE_EXTENSION` constant of `src/segment.rs`. -/
def FILE_EXTENSION : String := "segment"

/-- Rust `format!("{:08}", n)`: the decimal representation zero-padded on
the left to at least 8 characters. -/
def zeroPad8 (n : Nat) : String :=
  let s := Nat.repr n
  if s.length < 8 then String.mk (List.replicate (8 - s.length) '0') ++ s else s

/-- The file name `Segment::new` builds:
`parent.join(format!("{:08}", base)).with_extension(FILE_EXTENSION)`. -/
def segFileName (base : Nat) : String :=
  zeroPad8 base ++ "." ++ FILE_EXTENSION

/-- `Segment::new(parent_directory, base_offset)`: creates the parent
directory (and ancestors) if missing, opens the segment file with
`create(true).read(true).append(true)` (creating it empty if absent,
leaving existing contents intact), and returns the segment with
`write_position = 0`.  OS-level failures (permissions etc.) are outside
the model, so the modelled call always succeeds. -/
def Segment.new (T : Type) (fs : FS) (parent : DirPath) (base : Nat) :
    FS × Segment T :=
  let fs1 := if fs.dirExists parent then fs else fs.mkdirAll parent
  let p : FilePath' := (parent, segFileName base)
  let fs2 := if (fs1.readFile p).isSome then fs1 else fs1.writeFile p []
  (fs2, { base_offset := base, write_position := 0, cursor := 0, path := p })

/-- `Segment::write(record)`: serialize with bincode (failure is mapped to
`InvalidData` before any file I/O), append the 4-byte big-endian
`content_length` prefix and the serialized bytes (append-mode file), flush,
then advance `write_position` by `total_length as u64` (`u64` addition) and
return the new value. -/
def Segment.write {T : Type} (S : StorableImpl T) (fs : FS) (seg : Segment T)
    (record : T) : FS × Segment T × Except IoErr Nat :=
  match S.serialize record with
  | none => (fs, seg, Except.error IoErr.invalidData)
  | some bytes =>
    match fs.readFile seg.path with
    | none => (fs, seg, Except.error IoErr.notFound)
    | some contents =>
      let newContents := contents ++ toBeBytes32 (S.content_length record) ++ bytes
      let fs' := fs.writeFile seg.path newContents
      let wp' := (seg.write_position + S.total_length record % 2 ^ 32) % 2 ^ 64
      let seg' := { seg with cursor := newContents.length, write_position := wp' }
      (fs', seg', Except.ok wp')

/-- `Segment::read(offset)`: seek to `offset`, `read_exact` a 4-byte
big-endian length, `read_exact` that many payload bytes, then bincode
deserialize (failure mapped to `InvalidData`).  Short reads surface the
`UnexpectedEof` I/O error of `read_exact`. -/
def Segment.read {T : Type} (S : StorableImpl T) (fs : FS) (seg : Segment T)
    (offset : Nat) : FS × Segment T × Except IoErr T :=
  match fs.readFile seg.path with
  | none => (fs, seg, Except.error IoErr.notFound)
  | some contents =>
    let seg1 := { seg with cursor := offset }
    let after := contents.drop offset
    if after.length < 4 then (fs, seg1, Except.error IoErr.unexpectedEof)
    else
      let msg_len := fromBeBytes32 (after.take 4)
      let seg2 := { seg1 with cursor := offset + 4 }
      let rest := after.drop 4
      if rest.length < msg_len then (fs, seg2, Except.error IoErr.unexpectedEof)
      else
        let seg3 := { seg2 with cursor := offset + 4 + msg_len }
        match S.deserialize (rest.take msg_len) with
        | none => (fs, seg3, Except.error IoErr.invalidData)
        | some t => (fs, seg3, Except.ok t)

/-- Result of the `From<PathBuf> for Segment<T>` conversion: the source
calls `unwrap()` on the file open, on `to_str`, on the metadata read and
on the filename parse, so the conversion either yields a segment or
panics — it has no error channel. -/
inductive FromPathResult (T : Type) where
  | panicked
  | mk (seg : Segment T)
deriving DecidableEq, Repr

/-- Rust `str::parse::<u64>`: optional leading `+`, then one or more
ASCII digits, value below `2^64`; anything else fails. -/
def parseU64 (s : String) : Option Nat :=
  let cs := s.data
  let cs' := if cs.head? = some '+' then cs.tail else cs
  if cs'.isEmpty then none
  else if cs'.all fun c => c.isDigit then
    let v := cs'.foldl (fun acc c => acc * 10 + (c.toNat - 48)) 0
    if v < 2 ^ 64 then some v else none
  else none

/-- `impl From<PathBuf> for Segment<T>` of `src/segment.rs`:
`file_name().unwrap()` (always present here), `File::open(&path).unwrap()`
(panics if the file is missing), `metadata().unwrap().len()`, and
`filename.to_str().unwrap().parse::<u64>().unwrap()` (panics when the file
name — extension included — is not a decimal `u64`); sets
`write_position` to the file length **plus one**. -/
def Segment.fromPath (T : Type) (fs : FS) (path : FilePath') :
    FromPathResult T :=
  let filename := path.2
  match fs.readFile path with
  | none => FromPathResult.panicked
  | some contents =>
    match parseU64 filename with
    | none => FromPathResult.panicked
    | some base =>
      FromPathResult.mk
        { base_offset := base, write_position := contents.length + 1,
          cursor := 0, path := path }

/-- Iterated `Segment::write` over a list of records, collecting the
returned offsets; stops at the first error (unused under the contract
hypotheses below, where every write succeeds). -/
def Segment.writeAll {T : Type} (S : StorableImpl T) (fs : FS) (seg : Segment T) :
    List T → FS × Segment T × List Nat
  | [] => (fs, seg, [])
  | r :: rs =>
    match Segment.write S fs seg r with
    | (fs1, seg1, Except.ok o) =>
      let st := Segment.writeAll S fs1 seg1 rs
      (st.1, st.2.1, o :: st.2.2)
    | (fs1, seg1, Except.error _) => (fs1, seg1, [])

/-- The `Storable` contract of §4.1 of the spec, for one record value:
serialization succeeds and round-trips, `content_length` is the exact
serialized byte size, sizes fit the 4-byte length field, and
`total_length = content_length + 4`. -/
def goodRecord {T : Type} (S : StorableImpl T) (r : T) : Prop :=
  match S.serialize r with
  | none => False
  | some bs =>
      S.deserialize bs = some r ∧ S.content_length r = bs.length ∧
      bs.length + 4 < 2 ^ 32 ∧ S.total_length r = S.content_length r + 4

/-- The `Storable` contract for every record of a list. -/
def allGood {T : Type} (S : StorableImpl T) : List T → Prop
  | [] => True
  | r :: rs => goodRecord S r ∧ allGood S rs

/-- Sum of `total_length` over a list of records. -/
def sumTotals {T : Type} (S : StorableImpl T) : List T → Nat
  | [] => 0
  | r :: rs => S.total_length r + sumTotals S rs

/-- The offsets `O1..On` returned by writing `R1..Rn` starting from
`base`: `O(i) = O(i-1) + total_length R(i)`. -/
def cumOffsets {T : Type} (S : StorableImpl T) (base : Nat) : List T → List Nat
  | [] => []
  | r :: rs =>
      (base + S.total_length r) :: cumOffsets S (base + S.total_length r) rs

/-- The on-disk frame of one record: 4-byte big-endian `content_length`
followed by the serialized payload. -/
def frame {T : Type} (S : StorableImpl T) (r : T) : List Nat :=
  toBeBytes32 (S.content_length r) ++ (S.serialize r).getD []

/-- Back-to-back frames of a list of records (no padding). -/
def framesOf {T : Type} (S : StorableImpl T) : List T → List Nat
  | [] => []
  | r :: rs => frame S r ++ framesOf S rs

/-- UTF-8 bytes of the string `"hello world!"`. -/
def helloBytes : List Nat :=
  [104, 101, 108, 108, 111, 32, 119, 111, 114, 108, 100, 33]

/-- `Message::new("hello world!")`. -/
def mHello : Message := ⟨helloBytes⟩

/-- `Message::new("hi")`. -/
def mHi : Message := ⟨[104, 105]⟩

/-- A record type whose bincode serialization fails (serde `Serialize`
implementations may error); used to exhibit the serialization-failure
path of `Segment::write`. -/
def failStorable : StorableImpl Unit where
  serialize _ := none
  deserialize _ := none
  content_length _ := 0
  total_length _ := 4

/-- A file holding a frame whose declared payload length (5) exceeds the
available bytes (2): a truncated file. -/
def truncatedFS : FS := FS.writeFile FS.empty (["d"], "00000000.segment") [0, 0, 0, 5, 1, 2]

/-- A file holding a well-formed frame whose 2-byte payload is not a
valid bincode `Message` (fewer than the 8 length bytes). -/
def badPayloadFS : FS := FS.writeFile FS.empty (["d"], "00000000.segment") [0, 0, 0, 2, 9, 9]

/-- A segment handle over the file used by the two filesystems above. -/
def probeSeg : Segment Message :=
  { base_offset := 0, write_position := 0, cursor := 0,
    path := (["d"], "00000000.segment") }

/-- A `Segment<()>` handle, used with `failStorable`. -/
def probeSegU : Segment Unit :=
  { base_offset := 0, write_position := 0, cursor := 0,
    path := (["d"], "00000000.segment") }

/-! ### Helper lemmas -/

theorem toBeBytes32_length (n : Nat) : (toBeBytes32 n).length = 4 := rfl

theorem fromBe_toBe (n : Nat) : fromBeBytes32 (toBeBytes32 n) = n % 2 ^ 32 := by
  simp only [toBeBytes32, fromBeBytes32]
  omega

theorem assocFind_set_self (l : List (FilePath' × List Nat)) (p : FilePath')
    (v : List Nat) : assocFind (assocSet l p v) p = some v := by
  induction l with
  | nil => simp [assocSet, assocFind]
  | cons kv rest ih =>
    obtain ⟨k, w⟩ := kv
    by_cases h : k = p
    · simp [assocSet, assocFind, h]
    · simp [assocSet, assocFind, h, ih]

theorem readFile_writeFile_self (fs : FS) (p : FilePath') (v : List Nat) :
    (fs.writeFile p v).readFile p = some v :=
  assocFind_set_self fs.files p v

theorem readFile_mkdirAll (fs : FS) (d : DirPath) (p : FilePath') :
    (fs.mkdirAll d).readFile p = fs.readFile p := rfl

theorem goodRecord_elim {T : Type} (S : StorableImpl T) (r : T)
    (h : goodRecord S r) :
    ∃ bs, S.serialize r = some bs ∧ S.deserialize bs = some r ∧
      S.content_length r = bs.length ∧ bs.length + 4 < 2 ^ 32 ∧
      S.total_length r = S.content_length r + 4 := by
  unfold goodRecord at h
  cases hs : S.serialize r with
  | none => rw [hs] at h; exact h.elim
  | some bs =>
    rw [hs] at h
    exact ⟨bs, rfl, h.1, h.2.1, h.2.2.1, h.2.2.2⟩

theorem new_seg (T : Type) (fs : FS) (parent : DirPath) (base : Nat) :
    (Segment.new T fs parent base).2 =
      { base_offset := base, write_position := 0, cursor := 0,
        path := (parent, segFileName base) } := rfl

theorem new_fs_readFile (T : Type) (fs : FS) (parent : DirPath) (base : Nat)
    (hfresh : fs.readFile (parent, segFileName base) = none) :
    (Segment.new T fs parent base).1.readFile (parent, segFileName base)
      = some [] := by
  unfold Segment.new
  by_cases hd : fs.dirExists parent
  · simp only [hd, if_true, hfresh, Option.isSome_none, Bool.false_eq_true,
      if_false]
    exact readFile_writeFile_self fs _ []
  · simp only [hd, Bool.false_eq_true, if_false]
    rw [readFile_mkdirAll fs parent, hfresh] at *
    simp only [Option.isSome_none, Bool.false_eq_true, if_false]
    exact readFile_writeFile_self (fs.mkdirAll parent) _ []

theorem write_spec {T : Type} (S : StorableImpl T) (fs : FS) (seg : Segment T)
    (r : T) (bs c : List Nat)
    (hser : S.serialize r = some bs)
    (hfile : fs.readFile seg.path = some c) :
    Segment.write S fs seg r =
      (fs.writeFile seg.path (c ++ toBeBytes32 (S.content_length r) ++ bs),
       { seg with
          cursor := (c ++ toBeBytes32 (S.content_length r) ++ bs).length,
          write_position :=
            (seg.write_position + S.total_length r % 2 ^ 32) % 2 ^ 64 },
       Except.ok ((seg.write_position + S.total_length r % 2 ^ 32) % 2 ^ 64)) := by
  unfold Segment.write
  rw [hser, hfile]

theorem read_at_boundary {T : Type} (S : StorableImpl T) (fs : FS)
    (seg : Segment T) (c0 bs tl : List Nat) (r : T)
    (hfile : fs.readFile seg.path
      = some (c0 ++ (toBeBytes32 (S.content_length r) ++ bs) ++ tl))
    (hdes : S.deserialize bs = some r)
    (hcl : S.content_length r = bs.length)
    (hlt : bs.length < 2 ^ 32) :
    (Segment.read S fs seg c0.length).2.2 = Except.ok r := by
  unfold Segment.read
  rw [hfile]
  dsimp only
  have hdrop : (c0 ++ (toBeBytes32 (S.content_length r) ++ bs) ++ tl).drop c0.length
      = toBeBytes32 (S.content_length r) ++ (bs ++ tl) := by
    rw [List.append_assoc, List.drop_left, List.append_assoc]
  rw [hdrop]
  have hlen : (toBeBytes32 (S.content_length r) ++ (bs ++ tl)).length
      = 4 + (bs.length + tl.length) := by
    simp [toBeBytes32_length, List.length_append]
  have h4 : ¬ (toBeBytes32 (S.content_length r) ++ (bs ++ tl)).length < 4 := by
    omega
  rw [if_neg h4]
  have htake : (toBeBytes32 (S.content_length r) ++ (bs ++ tl)).take 4
      = toBeBytes32 (S.content_length r) :=
    List.take_left' (toBeBytes32_length _)
  have hdrop4 : (toBeBytes32 (S.content_length r) ++ (bs ++ tl)).drop 4
      = bs ++ tl :=
    List.drop_left' (toBeBytes32_length _)
  rw [htake, hdrop4, fromBe_toBe, hcl, Nat.mod_eq_of_lt hlt]
  have hrest : ¬ (bs ++ tl).length < bs.length := by
    simp [List.length_append]
  rw [if_neg hrest, List.take_left, hdes]

theorem writeAll_spec {T : Type} (S : StorableImpl T) :
    ∀ (rs : List T) (fs : FS) (seg : Segment T) (c : List Nat),
      fs.readFile seg.path = some c →
      seg.write_position = c.length →
      allGood S rs →
      c.length + sumTotals S rs < 2 ^ 64 →
      (Segment.writeAll S fs seg rs).1.readFile seg.path
          = some (c ++ framesOf S rs) ∧
      (Segment.writeAll S fs seg rs).2.1.write_position
          = c.length + sumTotals S rs ∧
      (Segment.writeAll S fs seg rs).2.1.path = seg.path ∧
      (Segment.writeAll S fs seg rs).2.1.base_offset = seg.base_offset ∧
      (Segment.writeAll S fs seg rs).2.2 = cumOffsets S c.length rs := by
  intro rs
  induction rs with
  | nil =>
    intro fs seg c hfile hwp _ _
    refine ⟨?_, ?_, rfl, rfl, rfl⟩
    · simpa [Segment.writeAll, framesOf] using hfile
    · simpa [Segment.writeAll, sumTotals] using hwp
  | cons r rs ih =>
    intro fs seg c hfile hwp hgood hsum
    obtain ⟨bs, hser, hdes, hcl, hlt, htot⟩ := goodRecord_elim S r hgood.1
    have hsums : sumTotals S (r :: rs) = S.total_length r + sumTotals S rs := rfl
    have htotal : S.total_length r = bs.length + 4 := by rw [htot, hcl]
    have htmod : S.total_length r % 2 ^ 32 = S.total_length r :=
      Nat.mod_eq_of_lt (by omega)
    have hwp' : (seg.write_position + S.total_length r % 2 ^ 32) % 2 ^ 64
        = c.length + S.total_length r := by
      rw [htmod, hwp]
      exact Nat.mod_eq_of_lt (by omega)
    have hclen : (c ++ toBeBytes32 (S.content_length r) ++ bs).length
        = c.length + S.total_length r := by
      simp only [List.length_append, toBeBytes32_length]
      omega
    simp only [Segment.writeAll]
    rw [write_spec S fs seg r bs c hser hfile]
    dsimp only
    have ihh := ih
      (fs.writeFile seg.path (c ++ toBeBytes32 (S.content_length r) ++ bs))
      { seg with
          cursor := (c ++ toBeBytes32 (S.content_length r) ++ bs).length,
          write_position :=
            (seg.write_position + S.total_length r % 2 ^ 32) % 2 ^ 64 }
      (c ++ toBeBytes32 (S.content_length r) ++ bs)
      (readFile_writeFile_self _ _ _)
      (by dsimp only; rw [hwp', hclen])
      hgood.2
      (by rw [hclen]; omega)
    obtain ⟨h1, h2, h3, h4, h5⟩ := ihh
    have hframe : frame S r = toBeBytes32 (S.content_length r) ++ bs := by
      simp [frame, hser]
    refine ⟨?_, ?_, ?_, ?_, ?_⟩
    · rw [h1]
      congr 1
      simp [framesOf, hframe, List.append_assoc]
    · rw [h2, hclen, hsums]; omega
    · exact h3
    · exact h4
    · rw [h5, hclen]
      simp only [cumOffsets, hwp']

theorem read_frames {T : Type} (S : StorableImpl T) :
    ∀ (rs : List T) (i : Nat) (hi : i < rs.length) (fs : FS) (seg : Segment T)
      (c0 tl : List Nat),
      fs.readFile seg.path = some (c0 ++ framesOf S rs ++ tl) →
      allGood S rs →
      (Segment.read S fs seg (c0.length + sumTotals S (List.take i rs))).2.2
        = Except.ok (rs.get ⟨i, hi⟩) := by
  intro rs
  induction rs with
  | nil => intro i hi; exact absurd hi (by simp)
  | cons r rs ih =>
    intro i hi fs seg c0 tl hfile hgood
    obtain ⟨bs, hser, hdes, hcl, hlt, htot⟩ := goodRecord_elim S r hgood.1
    have hframe : frame S r = toBeBytes32 (S.content_length r) ++ bs := by
      simp [frame, hser]
    cases i with
    | zero =>
      have hoff : c0.length + sumTotals S (List.take 0 (r :: rs)) = c0.length := by
        simp [sumTotals]
      rw [hoff]
      have hfile' : fs.readFile seg.path
          = some (c0 ++ (toBeBytes32 (S.content_length r) ++ bs)
              ++ (framesOf S rs ++ tl)) := by
        rw [hfile]
        congr 1
        simp [framesOf, hframe, List.append_assoc]
      exact read_at_boundary S fs seg c0 bs _ r hfile' hdes hcl (by omega)
    | succ i =>
      have hlen : (c0 ++ frame S r).length = c0.length + S.total_length r := by
        simp only [hframe, List.length_append, toBeBytes32_length]
        omega
      have hoff : c0.length + sumTotals S (List.take (i + 1) (r :: rs))
          = (c0 ++ frame S r).length + sumTotals S (List.take i rs) := by
        simp only [List.take, sumTotals, hlen]
        omega
      rw [hoff]
      have hfile' : fs.readFile seg.path
          = some ((c0 ++ frame S r) ++ framesOf S rs ++ tl) := by
        rw [hfile]
        congr 1
        simp [framesOf, List.append_assoc]
      exact ih i (Nat.lt_of_succ_lt_succ hi) fs seg (c0 ++ frame S r) tl hfile'
        hgood.2

theorem cumOffsets_chain {T : Type} (S : StorableImpl T) :
    ∀ (rs : List T) (base : Nat), allGood S rs →
      List.Chain' (· < ·) (base :: cumOffsets S base rs) := by
  intro rs
  induction rs with
  | nil => intro base _; simp [cumOffsets]
  | cons r rs ih =>
    intro base hgood
    obtain ⟨bs, hser, hdes, hcl, hlt, htot⟩ := goodRecord_elim S r hgood.1
    simp only [cumOffsets]
    rw [List.chain'_cons]
    exact ⟨by omega, ih (base + S.total_length r) hgood.2⟩

theorem dirExists_mkdirAll (fs : FS) (d : DirPath) (k : Nat) (hk : k < d.length) :
    (fs.mkdirAll d).dirExists (d.take (k + 1)) = true := by
  unfold FS.mkdirAll FS.dirExists
  dsimp only
  rw [List.any_append, Bool.or_eq_true]
  left
  rw [List.any_eq_true]
  exact ⟨d.take (k + 1), List.mem_map.mpr ⟨k, List.mem_range.mpr hk, rfl⟩, by simp⟩

theorem dirExists_mkdirAll_self (fs : FS) (d : DirPath) (hne : d ≠ []) :
    (fs.mkdirAll d).dirExists d = true := by
  have hlen : 0 < d.length := List.length_pos.mpr hne
  have := dirExists_mkdirAll fs d (d.length - 1) (by omega)
  rwa [show d.length - 1 + 1 = d.length from by omega, List.take_length] at this

/-! ### Claim theorems -/

/-- C1: Round trip.  For every record value of a type satisfying the
Storable contract (bincode serialization succeeds and round-trips, and
`content_length` is the exact serialized size, fitting the 4-byte length
field), writing it to a freshly created segment (`write_position 0`) and
then calling `read(0)` on the same segment returns a record equal to the
original. -/
theorem c1_round_trip {T : Type} (S : StorableImpl T) (r : T) (fs : FS)
    (parent : DirPath) (base : Nat) (bs : List Nat)
    (hfresh : fs.readFile (parent, segFileName base) = none)
    (hser : S.serialize r = some bs)
    (hdes : S.deserialize bs = some r)
    (hcl : S.content_length r = bs.length)
    (hlt : bs.length < 2 ^ 32) :
    (Segment.read S
      (Segment.write S (Segment.new T fs parent base).1
        (Segment.new T fs parent base).2 r).1
      (Segment.write S (Segment.new T fs parent base).1
        (Segment.new T fs parent base).2 r).2.1
      0).2.2 = Except.ok r := by
  have hnew := new_fs_readFile T fs parent base hfresh
  have hw := write_spec S (Segment.new T fs parent base).1
    (Segment.new T fs parent base).2 r bs [] hser hnew
  rw [hw]
  dsimp only
  have hfile2 : ((Segment.new T fs parent base).1.writeFile
      (Segment.new T fs parent base).2.path
      ([] ++ toBeBytes32 (S.content_length r) ++ bs)).readFile
      (Segment.new T fs parent base).2.path
      = some ([] ++ (toBeBytes32 (S.content_length r) ++ bs) ++ []) := by
    rw [readFile_writeFile_self]
    simp
  exact read_at_boundary S _ _ [] bs [] r hfile2 hdes hcl hlt

/-- C1 witness: writing `Message::new("hello world!")` to a fresh segment
and reading at offset 0 returns the very same message. -/
theorem c1_round_trip_witness :
    (Segment.read msgStorable
      (Segment.write msgStorable (Segment.new Message FS.empty ["test_data"] 0).1
        (Segment.new Message FS.empty ["test_data"] 0).2 mHello).1
      (Segment.write msgStorable (Segment.new Message FS.empty ["test_data"] 0).1
        (Segment.new Message FS.empty ["test_data"] 0).2 mHello).2.1
      0).2.2 = Except.ok mHello :=
  c1_round_trip msgStorable mHello FS.empty ["test_data"] 0
    mHello.serializeBytes rfl rfl rfl rfl (by decide)

/-- C7: Size invariant.  For every `Message` whose content is small
enough that the `u32` arithmetic does not wrap (any realistic string),
`total_length() = content_length() + 4`, the 4 being the fixed length
prefix; both quantities are pure functions of the record value. -/
theorem c7_size_invariant (m : Message) (h : m.content.length + 12 < 2 ^ 32) :
    m.total_length = m.content_length + 4 := by
  unfold Message.total_length Message.content_length
  omega

/-- C7 witness at `Message::new("hello world!")`: `24 = 20 + 4`. -/
theorem c7_size_invariant_witness :
    mHello.content.length + 12 < 2 ^ 32 ∧
    mHello.total_length = mHello.content_length + 4 :=
  ⟨by decide, c7_size_invariant mHello (by decide)⟩

/-- C9: `read` is observationally pure apart from the file cursor: for
every offset, whether it succeeds or fails, it appends no bytes to the
filesystem and leaves `write_position`, `base_offset` and `path`
unchanged. -/
theorem c9_read_preserves {T : Type} (S : StorableImpl T) (fs : FS)
    (seg : Segment T) (offset : Nat) :
    (Segment.read S fs seg offset).1 = fs ∧
    (Segment.read S fs seg offset).2.1.write_position = seg.write_position ∧
    (Segment.read S fs seg offset).2.1.base_offset = seg.base_offset ∧
    (Segment.read S fs seg offset).2.1.path = seg.path := by
  cases hf : fs.readFile seg.path with
  | none =>
    unfold Segment.read
    rw [hf]
    exact ⟨rfl, rfl, rfl, rfl⟩
  | some c =>
    unfold Segment.read
    rw [hf]
    dsimp only
    by_cases h1 : (c.drop offset).length < 4
    · rw [if_pos h1]
      exact ⟨rfl, rfl, rfl, rfl⟩
    · rw [if_neg h1]
      by_cases h2 : ((c.drop offset).drop 4).length
          < fromBeBytes32 ((c.drop offset).take 4)
      · rw [if_pos h2]
        exact ⟨rfl, rfl, rfl, rfl⟩
      · rw [if_neg h2]
        cases hd : S.deserialize (((c.drop offset).drop 4).take
            (fromBeBytes32 ((c.drop offset).take 4))) with
        | none => exact ⟨rfl, rfl, rfl, rfl⟩
        | some t => exact ⟨rfl, rfl, rfl, rfl⟩

/-- C10: when serialization fails, `write` returns the `InvalidData`
error before any file I/O: the filesystem (hence the backing file) and
the whole segment state, `write_position` included, are unchanged. -/
theorem c10_write_serialize_failure {T : Type} (S : StorableImpl T) (fs : FS)
    (seg : Segment T) (r : T) (h : S.serialize r = none) :
    Segment.write S fs seg r = (fs, seg, Except.error IoErr.invalidData) := by
  unfold Segment.write
  rw [h]

/-- C10 witness: a record whose serializer errors leaves the state
untouched and yields `InvalidData`. -/
theorem c10_write_serialize_failure_witness :
    failStorable.serialize () = none ∧
    Segment.write failStorable FS.empty probeSegU ()
      = (FS.empty, probeSegU, Except.error IoErr.invalidData) :=
  ⟨rfl, c10_write_serialize_failure failStorable FS.empty probeSegU () rfl⟩

theorem new_fs_dirs (T : Type) (fs : FS) (parent : DirPath) (base : Nat)
    (hdir : fs.dirExists parent = false) (d : DirPath) :
    (Segment.new T fs parent base).1.dirExists d
      = (fs.mkdirAll parent).dirExists d := by
  unfold Segment.new
  dsimp only
  rw [hdir]
  simp only [Bool.false_eq_true, if_false]
  split
  · rfl
  · rfl

/-- C2: Sequential append ordering.  Writing records `R1..Rn` (each
satisfying the Storable contract, with no `u64` overflow of the running
total) in order to a fresh segment yields exactly the offsets
`O(i) = O(i-1) + total_length R(i)` with `O0 = 0`; the offsets are
strictly increasing; the final `write_position` is the sum of the
`total_length`s (each write advanced it by exactly `total_length` and
returned the new value); and reading at each `O(i-1)` returns `R(i)`.
For one record of serialized content length `L`, the returned offset is
`L + 4`. -/
theorem c2_sequential_append {T : Type} (S : StorableImpl T) (rs : List T)
    (fs : FS) (parent : DirPath) (base : Nat)
    (hfresh : fs.readFile (parent, segFileName base) = none)
    (hgood : allGood S rs)
    (hsum : sumTotals S rs < 2 ^ 64) :
    (Segment.writeAll S (Segment.new T fs parent base).1
        (Segment.new T fs parent base).2 rs).2.2 = cumOffsets S 0 rs ∧
    List.Chain' (· < ·) (0 :: cumOffsets S 0 rs) ∧
    (Segment.writeAll S (Segment.new T fs parent base).1
        (Segment.new T fs parent base).2 rs).2.1.write_position
      = sumTotals S rs ∧
    ∀ i, (hi : i < rs.length) →
      (Segment.read S
        (Segment.writeAll S (Segment.new T fs parent base).1
          (Segment.new T fs parent base).2 rs).1
        (Segment.writeAll S (Segment.new T fs parent base).1
          (Segment.new T fs parent base).2 rs).2.1
        (sumTotals S (List.take i rs))).2.2 = Except.ok (rs.get ⟨i, hi⟩) := by
  have hnew := new_fs_readFile T fs parent base hfresh
  obtain ⟨h1, h2, h3, h4, h5⟩ := writeAll_spec S rs (Segment.new T fs parent base).1
    (Segment.new T fs parent base).2 [] hnew rfl hgood (by simpa using hsum)
  refine ⟨by simpa using h5, cumOffsets_chain S rs 0 hgood, by simpa using h2, ?_⟩
  intro i hi
  have hfile : (Segment.writeAll S (Segment.new T fs parent base).1
        (Segment.new T fs parent base).2 rs).1.readFile
      (Segment.writeAll S (Segment.new T fs parent base).1
        (Segment.new T fs parent base).2 rs).2.1.path
      = some ([] ++ framesOf S rs ++ []) := by
    rw [h3, h1]
    simp
  have hr := read_frames S rs i hi _ _ [] [] hfile hgood
  simpa using hr

/-- C2 witness at the two messages `"hello world!"` (serialized content
length 20, so its offset is `4 + 20`) and `"hi"`. -/
theorem c2_sequential_append_witness :
    FS.empty.readFile (["d"], segFileName 0) = none ∧
    allGood msgStorable [mHello, mHi] ∧
    sumTotals msgStorable [mHello, mHi] < 2 ^ 64 ∧
    ((Segment.writeAll msgStorable (Segment.new Message FS.empty ["d"] 0).1
        (Segment.new Message FS.empty ["d"] 0).2 [mHello, mHi]).2.2
      = cumOffsets msgStorable 0 [mHello, mHi] ∧
    List.Chain' (· < ·) (0 :: cumOffsets msgStorable 0 [mHello, mHi]) ∧
    (Segment.writeAll msgStorable (Segment.new Message FS.empty ["d"] 0).1
        (Segment.new Message FS.empty ["d"] 0).2 [mHello, mHi]).2.1.write_position
      = sumTotals msgStorable [mHello, mHi] ∧
    ∀ i, (hi : i < [mHello, mHi].length) →
      (Segment.read msgStorable
        (Segment.writeAll msgStorable (Segment.new Message FS.empty ["d"] 0).1
          (Segment.new Message FS.empty ["d"] 0).2 [mHello, mHi]).1
        (Segment.writeAll msgStorable (Segment.new Message FS.empty ["d"] 0).1
          (Segment.new Message FS.empty ["d"] 0).2 [mHello, mHi]).2.1
        (sumTotals msgStorable (List.take i [mHello, mHi]))).2.2
        = Except.ok ([mHello, mHi].get ⟨i, hi⟩)) := by
  have hg : allGood msgStorable [mHello, mHi] :=
    ⟨⟨rfl, rfl, by decide, rfl⟩, ⟨rfl, rfl, by decide, rfl⟩, trivial⟩
  exact ⟨rfl, hg, by decide,
    c2_sequential_append msgStorable [mHello, mHi] FS.empty ["d"] 0 rfl hg
      (by decide)⟩

/-- C5: Frame layout.  A successful `write` appends to the file exactly
one frame — the 4-byte big-endian prefix encoding `content_length`
followed immediately by the serialized payload, with no padding — leaving
all previously written bytes in place as a prefix, and returns the
advanced write position. -/
theorem c5_frame_layout {T : Type} (S : StorableImpl T) (fs : FS)
    (seg : Segment T) (r : T) (bs c : List Nat)
    (hser : S.serialize r = some bs)
    (hfile : fs.readFile seg.path = some c)
    (hcl : S.content_length r < 2 ^ 32) :
    (Segment.write S fs seg r).2.2
      = Except.ok ((seg.write_position + S.total_length r % 2 ^ 32) % 2 ^ 64) ∧
    (Segment.write S fs seg r).1.readFile seg.path
      = some (c ++ (toBeBytes32 (S.content_length r) ++ bs)) ∧
    (toBeBytes32 (S.content_length r)).length = 4 ∧
    fromBeBytes32 (toBeBytes32 (S.content_length r)) = S.content_length r := by
  have hw := write_spec S fs seg r bs c hser hfile
  refine ⟨by rw [hw], ?_, toBeBytes32_length _,
    by rw [fromBe_toBe]; exact Nat.mod_eq_of_lt hcl⟩
  rw [hw]
  dsimp only
  rw [readFile_writeFile_self]
  rw [List.append_assoc]

/-- C5 witness: writing `"hello world!"` onto a file already holding six
bytes appends exactly the frame `[0,0,0,20] ++ payload` after them. -/
theorem c5_frame_layout_witness :
    (Segment.write msgStorable truncatedFS probeSeg mHello).2.2
      = Except.ok ((probeSeg.write_position
          + msgStorable.total_length mHello % 2 ^ 32) % 2 ^ 64) ∧
    (Segment.write msgStorable truncatedFS probeSeg mHello).1.readFile probeSeg.path
      = some ([0, 0, 0, 5, 1, 2]
          ++ (toBeBytes32 (msgStorable.content_length mHello)
              ++ mHello.serializeBytes)) ∧
    (toBeBytes32 (msgStorable.content_length mHello)).length = 4 ∧
    fromBeBytes32 (toBeBytes32 (msgStorable.content_length mHello))
      = msgStorable.content_length mHello :=
  c5_frame_layout msgStorable truncatedFS probeSeg mHello
    mHello.serializeBytes [0, 0, 0, 5, 1, 2] rfl rfl (by decide)

/-- C6: Fresh creation.  `Segment::new` with base offset 0 under a
non-existent parent directory creates that directory and all its
ancestors, creates an empty backing file named by the base offset
zero-padded to 8 digits plus the `.segment` extension, and returns a
segment with `write_position = 0` bound to that file. -/
theorem c6_fresh_creation (fs : FS) (parent : DirPath) (hne : parent ≠ [])
    (hdir : fs.dirExists parent = false)
    (hfile : fs.readFile (parent, segFileName 0) = none) :
    (Segment.new Message fs parent 0).1.dirExists parent = true ∧
    (∀ k, k < parent.length →
      (Segment.new Message fs parent 0).1.dirExists (parent.take (k + 1)) = true) ∧
    (Segment.new Message fs parent 0).1.readFile (parent, segFileName 0)
      = some [] ∧
    segFileName 0 = "00000000.segment" ∧
    (Segment.new Message fs parent 0).2.write_position = 0 ∧
    (Segment.new Message fs parent 0).2.path = (parent, segFileName 0) := by
  refine ⟨?_, ?_, new_fs_readFile Message fs parent 0 hfile, by decide, rfl, rfl⟩
  · rw [new_fs_dirs Message fs parent 0 hdir]
    exact dirExists_mkdirAll_self fs parent hne
  · intro k hk
    rw [new_fs_dirs Message fs parent 0 hdir]
    exact dirExists_mkdirAll fs parent k hk

/-- C6 witness under the non-existent directory `test_data/seg1`. -/
theorem c6_fresh_creation_witness :
    (["test_data", "seg1"] : DirPath) ≠ [] ∧
    FS.empty.dirExists ["test_data", "seg1"] = false ∧
    FS.empty.readFile (["test_data", "seg1"], segFileName 0) = none ∧
    ((Segment.new Message FS.empty ["test_data", "seg1"] 0).1.dirExists
        ["test_data", "seg1"] = true ∧
      (∀ k, k < (["test_data", "seg1"] : DirPath).length →
        (Segment.new Message FS.empty ["test_data", "seg1"] 0).1.dirExists
          ((["test_data", "seg1"] : DirPath).take (k + 1)) = true) ∧
      (Segment.new Message FS.empty ["test_data", "seg1"] 0).1.readFile
        (["test_data", "seg1"], segFileName 0) = some [] ∧
      segFileName 0 = "00000000.segment" ∧
      (Segment.new Message FS.empty ["test_data", "seg1"] 0).2.write_position = 0 ∧
      (Segment.new Message FS.empty ["test_data", "seg1"] 0).2.path
        = (["test_data", "seg1"], segFileName 0)) :=
  ⟨by simp, rfl, rfl,
    c6_fresh_creation FS.empty ["test_data", "seg1"] (by simp) rfl rfl⟩

/-- C8: Read failure modes.  For every offset, `read` returns the
`UnexpectedEof` I/O error when fewer bytes are available than the 4-byte
length prefix requires, or than the declared payload length requires
(truncated file), and the `InvalidData` error when deserializing the
payload bytes fails; it never succeeds silently in these cases (and the
modelled function is total, so no panic occurs). -/
theorem c8_read_errors {T : Type} (S : StorableImpl T) (fs : FS)
    (seg : Segment T) (offset : Nat) (c : List Nat)
    (hfile : fs.readFile seg.path = some c) :
    ((c.drop offset).length < 4 →
      (Segment.read S fs seg offset).2.2 = Except.error IoErr.unexpectedEof) ∧
    (4 ≤ (c.drop offset).length →
      ((c.drop offset).drop 4).length < fromBeBytes32 ((c.drop offset).take 4) →
      (Segment.read S fs seg offset).2.2 = Except.error IoErr.unexpectedEof) ∧
    (4 ≤ (c.drop offset).length →
      fromBeBytes32 ((c.drop offset).take 4) ≤ ((c.drop offset).drop 4).length →
      S.deserialize (((c.drop offset).drop 4).take
        (fromBeBytes32 ((c.drop offset).take 4))) = none →
      (Segment.read S fs seg offset).2.2 = Except.error IoErr.invalidData) := by
  unfold Segment.read
  rw [hfile]
  dsimp only
  refine ⟨?_, ?_, ?_⟩
  · intro h
    rw [if_pos h]
  · intro h4 hshort
    rw [if_neg (by omega), if_pos hshort]
  · intro h4 hlen hdes
    rw [if_neg (by omega), if_neg (by omega), hdes]

/-- C8 witness: a 4-byte-short tail, a truncated payload, and a payload
bincode cannot decode, each yielding the claimed error kind. -/
theorem c8_read_errors_witness :
    (Segment.read msgStorable truncatedFS probeSeg 4).2.2
      = Except.error IoErr.unexpectedEof ∧
    (Segment.read msgStorable truncatedFS probeSeg 0).2.2
      = Except.error IoErr.unexpectedEof ∧
    (Segment.read msgStorable badPayloadFS probeSeg 0).2.2
      = Except.error IoErr.invalidData :=
  ⟨(c8_read_errors msgStorable truncatedFS probeSeg 4 [0, 0, 0, 5, 1, 2] rfl).1
      (by decide),
   (c8_read_errors msgStorable truncatedFS probeSeg 0 [0, 0, 0, 5, 1, 2] rfl).2.1
      (by decide) (by decide),
   (c8_read_errors msgStorable badPayloadFS probeSeg 0 [0, 0, 0, 2, 9, 9] rfl).2.2
      (by decide) (by decide) rfl⟩

/-- C3: Reconstruction (code bug evidence).  Reconstructing a segment via
`From<PathBuf>` from the very file `Segment::new` + `write` produced
(file name `"00000000.segment"`, 24 bytes written) panics: the source
parses the full file name, extension included, with
`parse::<u64>().unwrap()`.  Moreover, even for a file whose name does
parse (here `"00000042"`, holding 24 bytes), the recovered
`write_position` is `25 = K + 1`, not the file length `K = 24` the spec
requires. -/
theorem c3_reconstruction_bug :
    Segment.fromPath Message
      (Segment.write msgStorable (Segment.new Message FS.empty ["test_data"] 0).1
        (Segment.new Message FS.empty ["test_data"] 0).2 mHello).1
      (Segment.write msgStorable (Segment.new Message FS.empty ["test_data"] 0).1
        (Segment.new Message FS.empty ["test_data"] 0).2 mHello).2.1.path
      = FromPathResult.panicked ∧
    (List.replicate 24 (7 : Nat)).length = 24 ∧
    Segment.fromPath Message
      (FS.writeFile FS.empty (["d"], "00000042") (List.replicate 24 7))
      (["d"], "00000042")
      = FromPathResult.mk
          { base_offset := 42, write_position := 25, cursor := 0,
            path := (["d"], "00000042") } :=
  ⟨rfl, rfl, rfl⟩

/-- C4: Malformed-name reconstruction (code bug evidence).  For a path
whose file name does not parse as a `u64` (here `"garbage.segment"`),
`From<PathBuf>` panics via `unwrap()` instead of returning a typed,
catchable error — the `From` conversion has no error channel at all. -/
theorem c4_malformed_name_panics :
    parseU64 "garbage.segment" = none ∧
    Segment.fromPath Message
      (FS.writeFile FS.empty (["data"], "garbage.segment") [1, 2, 3])
      (["data"], "garbage.segment")
      = FromPathResult.panicked :=
  ⟨rfl, rfl⟩
